import Mathlib

/-!
# A shallow embedding of `tabbable` (src/index.js)

This file models the candidate-discovery, classification and sorting engine
of the `tabbable` library.  DOM elements are modelled as finite trees whose
nodes carry the observations the source code makes on a DOM element
(tag name, attributes, IDL properties, computed style, geometry).  The
external capability surface (selector queries for radio groups, document
attachment, availability of `CSS.escape`) is supplied by an `Env` record,
mirroring the spec's stance that the document/query capability is an
external collaborator.

Upward-looking code (ancestor walks) receives the node's ancestor chain
`ctx : List Elem` explicitly, nearest ancestor first; in the real DOM this
chain is obtained by following `parentElement` / slot-assignment / shadow
host links, which the tree model condenses into a single parent chain.
-/

namespace Tabbable

/-- The per-node observations that `src/index.js` reads from a DOM element.
`id` models JavaScript object identity (used for `===` comparisons,
`Array.includes` and `Node.contains`); `tabIndexProp` is the IDL
`node.tabIndex` while `tabindexAttr` is the authored `tabindex` attribute;
`visibilityHidden` is whether `getComputedStyle(node).visibility === 'hidden'`;
`clientRects` is `node.getClientRects().length`; `rectWidth`/`rectHeight`
come from `getBoundingClientRect()`; `form` is the id of the node's owning
form element (`node.form`), if any. -/
structure ElemData where
  id : Nat
  tagName : String
  inert : Bool
  disabled : Bool
  hasHref : Bool
  tabindexAttr : Option String
  contenteditableAttr : Option String
  hasControls : Bool
  typeAttr : String
  checked : Bool
  name : String
  isOpen : Bool
  visibilityHidden : Bool
  clientRects : Nat
  rectWidth : Nat
  rectHeight : Nat
  isContentEditable : Bool
  tabIndexProp : Int
  form : Option Nat
  deriving DecidableEq, Repr

/-- A DOM element: its observations, light-DOM children, the result of
`assignedElements()` (nonempty only for slots), and its shadow root —
flattened into `hasShadow` / `shadowInert` / `shadowChildren` fields
(`hasShadow = false` means `element.shadowRoot` is null).  A shadow root
obtained through the `getShadowRoot` capability is represented through the
same fields. -/
inductive Elem : Type where
  | mk (data : ElemData) (children : List Elem) (assigned : List Elem)
      (hasShadow : Bool) (shadowInert : Bool) (shadowChildren : List Elem)

def Elem.data : Elem → ElemData
  | .mk d _ _ _ _ _ => d

def Elem.children : Elem → List Elem
  | .mk _ c _ _ _ _ => c

def Elem.assigned : Elem → List Elem
  | .mk _ _ a _ _ _ => a

def Elem.hasShadow : Elem → Bool
  | .mk _ _ _ h _ _ => h

def Elem.shadowInert : Elem → Bool
  | .mk _ _ _ _ i _ => i

def Elem.shadowChildren : Elem → List Elem
  | .mk _ _ _ _ _ s => s

/-- A located element: the element together with its ancestor chain
(nearest ancestor first). -/
structure Loc where
  elem : Elem
  ctx : List Elem

/-- `isInert(node, lookUp)` from the source: the node's own `inert` flag,
or (when `lookUp`) any ancestor's. -/
def isInert (e : Elem) (ctx : List Elem) (lookUp : Bool) : Bool :=
  e.data.inert || (lookUp && ctx.any (fun a => a.data.inert))

/-- The `:not([inert]):not([inert] *)` guard shared by every clause of
`candidateSelectors`. -/
def notInertSel (e : Elem) (ctx : List Elem) : Bool :=
  !e.data.inert && !ctx.any (fun a => a.data.inert)

/-- The first `<summary>` child of an element (for `summary:first-of-type`),
identified by id. -/
def firstSummaryChildId (p : Elem) : Option Nat :=
  (p.children.find? (fun c => c.data.tagName == "SUMMARY")).map (fun c => c.data.id)

/-- `matches(node, 'details>summary:first-of-type')`. -/
def isDirectFirstSummary (e : Elem) (ctx : List Elem) : Bool :=
  e.data.tagName == "SUMMARY" &&
    match ctx with
    | p :: _ => p.data.tagName == "DETAILS" && firstSummaryChildId p == some e.data.id
    | [] => false

/-- `matches(node, candidateSelector)` where `candidateSelector` is the
comma-join of `candidateSelectors` (src/index.js lines 3-16).  Every clause
carries `:not([inert]):not([inert] *)`, factored out in front. -/
def matchesCandidateSelector (e : Elem) (ctx : List Elem) : Bool :=
  notInertSel e ctx &&
    (e.data.tagName == "INPUT" ||
      e.data.tagName == "SELECT" ||
      e.data.tagName == "TEXTAREA" ||
      (e.data.tagName == "A" && e.data.hasHref) ||
      e.data.tagName == "BUTTON" ||
      (e.data.tabindexAttr.isSome && e.data.tagName != "SLOT") ||
      (e.data.tagName == "AUDIO" && e.data.hasControls) ||
      (e.data.tagName == "VIDEO" && e.data.hasControls) ||
      (e.data.contenteditableAttr.isSome && e.data.contenteditableAttr != some "false") ||
      isDirectFirstSummary e ctx ||
      e.data.tagName == "DETAILS")

/-- `matches(node, focusableCandidateSelector)`: the candidate selector
plus the clause `iframe:not([inert] *)` (note: no self `[inert]` guard on
this clause, exactly as in the source). -/
def matchesFocusableCandidateSelector (e : Elem) (ctx : List Elem) : Bool :=
  matchesCandidateSelector e ctx ||
    (e.data.tagName == "IFRAME" && !ctx.any (fun a => a.data.inert))

/-- JavaScript `parseInt(s, 10)` on an attribute value: `none` models `NaN`
(`parseInt(null, 10)` is also `NaN`).  Leading spaces are skipped, an
optional sign is read, then the leading run of decimal digits. -/
def jsParseInt : Option String → Option Int
  | none => none
  | some str =>
    let cs := str.toList.dropWhile (fun c => c == ' ')
    let signedRest : Int × List Char :=
      match cs with
      | '-' :: r => (-1, r)
      | '+' :: r => (1, r)
      | r => (1, r)
    let ds := signedRest.2.takeWhile Char.isDigit
    if ds.isEmpty then none
    else some (signedRest.1 * (ds.foldl (fun n c => n * 10 + (c.toNat - 48)) 0 : Nat))

/-- `getTabindex(node, isScope)` (src/index.js lines 185-209): negative IDL
tab index is corrected to 0 for scopes, `AUDIO`/`VIDEO`/`DETAILS` tags and
contenteditable nodes when the authored `tabindex` attribute does not parse
as an integer. -/
def getTabindex (e : Elem) (isScope : Bool) : Int :=
  if e.data.tabIndexProp < 0 then
    if (isScope ||
          e.data.tagName == "AUDIO" ||
          e.data.tagName == "VIDEO" ||
          e.data.tagName == "DETAILS" ||
          e.data.isContentEditable) &&
        (jsParseInt e.data.tabindexAttr).isNone then
      0
    else e.data.tabIndexProp
  else e.data.tabIndexProp

def isInput (e : Elem) : Bool :=
  e.data.tagName == "INPUT"

def isHiddenInput (e : Elem) : Bool :=
  isInput e && e.data.typeAttr == "hidden"

def isDetailsWithSummary (e : Elem) : Bool :=
  e.data.tagName == "DETAILS" &&
    e.children.any (fun child => child.data.tagName == "SUMMARY")

/-- The external capability surface: whether the tree under inspection is
attached to the main document (`isNodeAttached`), whether `CSS.escape` is
available (`window.CSS.escape`), and the scope query used for radio groups:
`radioScope f` returns, in document order, the elements of the scope that
`querySelectorAll` runs over — the owning form when `f = some formId`
(`node.form`), otherwise the node's root (document or shadow root). -/
structure Env where
  attached : Bool
  cssEscape : Bool
  radioScope : Option Nat → List ElemData

/-- Whether a raw radio `name` can be interpolated into the selector
`input[type="radio"][name="<name>"]` without breaking its syntax: a double
quote or backslash in the name breaks the quoted attribute value. -/
def selectorNameValid (name : String) : Bool :=
  !name.toList.any (fun c => c == '"' || c == '\\')

/-- The filter that `querySelectorAll('input[type="radio"][name="N"]')`
applies to the scope's elements. -/
def radioGroup (env : Env) (d : ElemData) : List ElemData :=
  (env.radioScope d.form).filter
    (fun r => r.tagName == "INPUT" && r.typeAttr == "radio" && r.name == d.name)

/-- `getCheckedRadio(nodes, form)`: the first node that is checked and whose
`form` is the given one. -/
def getCheckedRadio (nodes : List ElemData) (form : Option Nat) : Option ElemData :=
  nodes.find? (fun r => r.checked && r.form == form)

/-- The `queryRadios` closure when no escaping is available: raw
interpolation of the name; an invalid selector makes `querySelectorAll`
throw, modelled by `Except.error`. -/
def queryRadiosRaw (env : Env) (d : ElemData) : Except String (List ElemData) :=
  if selectorNameValid d.name then .ok (radioGroup env d)
  else .error ("not a valid selector for name " ++ d.name)

/-- `isTabbableRadio(node)` (src/index.js lines 242-275) with its exception
flow made explicit.  The first component is the list of `console.error`
diagnostics emitted; the second is the function's outcome, where
`.error` would mean an exception escaping to the caller (the `try`/`catch`
converts the selector failure into a diagnostic plus `false`).  With
`CSS.escape` available the escaped selector is always valid and matches
exactly the literal name. -/
def isTabbableRadioRun (env : Env) (d : ElemData) : List String × Except String Bool :=
  if d.name == "" then ([], .ok true)
  else
    let finish : List ElemData → Bool := fun radioSet =>
      match getCheckedRadio radioSet d.form with
      | none => true
      | some checked => checked.id == d.id
    if env.cssEscape then ([], .ok (finish (radioGroup env d)))
    else
      match queryRadiosRaw env d with
      | .ok radioSet => ([], .ok (finish radioSet))
      | .error msg =>
        (["Looks like you have a radio button with a name attribute " ++
            "containing invalid CSS selector characters and need the " ++
            "CSS.escape polyfill: " ++ msg],
          .ok false)

def isTabbableRadio (env : Env) (d : ElemData) : Bool :=
  match (isTabbableRadioRun env d).2 with
  | .ok b => b
  | .error _ => false

def isRadio (d : ElemData) : Bool :=
  d.tagName == "INPUT" && d.typeAttr == "radio"

def isNonTabbableRadio (env : Env) (d : ElemData) : Bool :=
  isRadio d && !isTabbableRadio env d

/-- `isZeroArea(node)`: zero width and zero height of the bounding rect. -/
def isZeroArea (e : Elem) : Bool :=
  e.data.rectWidth == 0 && e.data.rectHeight == 0

/-- The `getShadowRoot` option: disabled (falsy), `true` (shadow support
without a probe), or a capability function.  The probe returning
`some true` reports an undisclosed shadow root; a probe that returns an
actual shadow root object for an element is represented through that
element's `shadow` field. -/
inductive ShadowOpt : Type where
  | disabled
  | enabled
  | probe (f : ElemData → Option Bool)

def probeOf : ShadowOpt → Option (ElemData → Option Bool)
  | .probe f => some f
  | _ => none

/-- The options record passed to the public queries:
`includeContainer`, `displayCheck` (kept as the raw `Option String` the
source compares against, so unknown values behave as in JS) and
`getShadowRoot`. -/
structure TOptions where
  includeContainer : Bool
  displayCheck : Option String
  shadow : ShadowOpt

/-- The undisclosed-shadow search of `isHidden`: walking up from the node,
is there an ancestor whose parent has no disclosed shadow root but is
reported by the probe as having an undisclosed one?  The source walk
follows slot-assignment and shadow-host links; the tree model condenses
those into the single ancestor chain `ctx`. -/
def undisclosedShadowHit (so : ShadowOpt) (ctx : List Elem) : Bool :=
  match probeOf so with
  | some f => ctx.any (fun p => !p.hasShadow && f p.data == some true)
  | none => false

/-- The mode-independent closed-details test of `isHidden`: for a direct
first summary the check runs on its parent `<details>`, otherwise on the
node itself; hidden when some strict ancestor is a `<details>` without
`open` (`matches(nodeUnderDetails, 'details:not([open]) *')`). -/
def hiddenByClosedDetails (e : Elem) (ctx : List Elem) : Bool :=
  let underDetailsCtx := if isDirectFirstSummary e ctx then ctx.tail else ctx
  underDetailsCtx.any (fun a => a.data.tagName == "DETAILS" && !a.data.isOpen)

/-- `isHidden(node, { displayCheck, getShadowRoot })`
(src/index.js lines 339-439). -/
def isHidden (env : Env) (opts : TOptions) (e : Elem) (ctx : List Elem) : Bool :=
  if e.data.visibilityHidden then true
  else if hiddenByClosedDetails e ctx then true
  else if opts.displayCheck == none || opts.displayCheck == some "full" ||
      opts.displayCheck == some "legacy-full" then
    if undisclosedShadowHit opts.shadow ctx then isZeroArea e
    else if env.attached then decide (e.data.clientRects = 0)
    else if opts.displayCheck != some "legacy-full" then true
    else false
  else if opts.displayCheck == some "non-zero-area" then isZeroArea e
  else false

mutual

/-- `node.contains(other)` restricted to id identity: whether the subtree
rooted at `e` (light DOM) holds a node with the given id. -/
def elemContains : Elem → Nat → Bool
  | .mk d cs _ _ _ _, i => d.id == i || elemContainsList cs i

def elemContainsList : List Elem → Nat → Bool
  | [], _ => false
  | c :: cs, i => elemContains c i || elemContainsList cs i

end

/-- Whether an element is a disabled `<fieldset>` (used both for the
ancestor walk and for `matches(parentNode, 'fieldset[disabled] *')`). -/
def isDisabledFieldset (a : Elem) : Bool :=
  a.data.tagName == "FIELDSET" && a.data.disabled

/-- The ancestor walk of `isDisabledFromFieldset`: find the nearest
disabled fieldset ancestor; at it, look for its first `<legend>` child;
exempt the node only if it sits under that legend and the fieldset is not
itself nested in another disabled fieldset. -/
def fieldsetWalk (nodeId : Nat) : List Elem → Bool
  | [] => false
  | p :: rest =>
    if isDisabledFieldset p then
      match p.children.find? (fun c => c.data.tagName == "LEGEND") with
      | some legend =>
        if rest.any isDisabledFieldset then true
        else !elemContains legend nodeId
      | none => true
    else fieldsetWalk nodeId rest

/-- The `/^(INPUT|BUTTON|SELECT|TEXTAREA)$/` test: a form control in the
sense of `isDisabledFromFieldset`. -/
def isFormControl (d : ElemData) : Bool :=
  d.tagName == "INPUT" || d.tagName == "BUTTON" || d.tagName == "SELECT" ||
    d.tagName == "TEXTAREA"

/-- `isDisabledFromFieldset(node)` (src/index.js lines 444-472). -/
def isDisabledFromFieldset (e : Elem) (ctx : List Elem) : Bool :=
  if isFormControl e.data then fieldsetWalk e.data.id ctx
  else false

/-- `isNodeMatchingSelectorFocusable(options, node)`
(src/index.js lines 474-490). -/
def isNodeMatchingSelectorFocusable (env : Env) (opts : TOptions)
    (e : Elem) (ctx : List Elem) : Bool :=
  !(e.data.disabled || isInert e ctx false || isHiddenInput e ||
      isHidden env opts e ctx || isDetailsWithSummary e ||
      isDisabledFromFieldset e ctx)

/-- `isNodeMatchingSelectorTabbable(options, node)`
(src/index.js lines 492-501). -/
def isNodeMatchingSelectorTabbable (env : Env) (opts : TOptions)
    (e : Elem) (ctx : List Elem) : Bool :=
  !(isNonTabbableRadio env e.data || getTabindex e false < 0 ||
      !isNodeMatchingSelectorFocusable env opts e ctx)

/-- `isValidShadowRootTabbable(shadowHostNode)`: a host with an authored
negative integer `tabindex` blocks tab targeting of its shadow content. -/
def isValidShadowRootTabbable (e : Elem) : Bool :=
  match jsParseInt e.data.tabindexAttr with
  | none => true
  | some t => decide (0 ≤ t)

/-- `isTabbable(node, options)` (src/index.js lines 593-602); the null-node
error path is not modelled since `Elem` is never null. -/
def isTabbableQ (env : Env) (opts : TOptions) (e : Elem) (ctx : List Elem) : Bool :=
  if matchesCandidateSelector e ctx == false then false
  else isNodeMatchingSelectorTabbable env opts e ctx

/-- `isFocusable(node, options)` (src/index.js lines 608-617). -/
def isFocusableQ (env : Env) (opts : TOptions) (e : Elem) (ctx : List Elem) : Bool :=
  if matchesFocusableCandidateSelector e ctx == false then false
  else isNodeMatchingSelectorFocusable env opts e ctx

mutual

/-- Number of nodes in an element (light children, assigned elements and
shadow children all counted); used only to bound the work of the iterative
collector's queue. -/
def elemWeight : Elem → Nat
  | .mk _ cs asg _ _ sh => 1 + elemsWeight cs + elemsWeight asg + elemsWeight sh

def elemsWeight : List Elem → Nat
  | [] => 0
  | c :: cs => 1 + elemWeight c + elemsWeight cs

end

mutual

/-- `el.querySelectorAll(candidateSelector)` on the subtree rooted at an
element: its matching descendants, in document (preorder) order, located
with their ancestor chains.  Matching consults the full ancestor chain, as
CSS matching does. -/
def queryAllElem : List Elem → Elem → List Loc
  | ctx, .mk d cs asg hs si sh =>
    (if matchesCandidateSelector (.mk d cs asg hs si sh) ctx then
      [⟨.mk d cs asg hs si sh, ctx⟩]
    else []) ++ queryAllList (Elem.mk d cs asg hs si sh :: ctx) cs

def queryAllList : List Elem → List Elem → List Loc
  | _, [] => []
  | ctx, c :: cs => queryAllElem ctx c ++ queryAllList ctx cs

end

/-- `getCandidates(el, includeContainer, filter)` (src/index.js lines
52-65): the flat, non-shadow-aware strategy. -/
def getCandidates (opts : TOptions) (el : Elem) (rootCtx : List Elem)
    (filter : Elem → List Elem → Bool) : List Loc :=
  if isInert el rootCtx true then []
  else
    let base := queryAllList (el :: rootCtx) el.children
    let cands :=
      if opts.includeContainer && matchesCandidateSelector el rootCtx then
        Loc.mk el rootCtx :: base
      else base
    cands.filter (fun le => filter le.elem le.ctx)

/-- A collected candidate: either a plain element or a `CandidateScope`
(`{ scopeParent, candidates }`) grouping the candidates found inside a
slot or shadow root. -/
inductive Cand : Type where
  | leaf (le : Loc)
  | scope (host : Loc) (inner : List Cand)

mutual

def candWeight : Cand → Nat
  | .leaf _ => 1
  | .scope _ inner => 1 + candsWeight inner

def candsWeight : List Cand → Nat
  | [] => 0
  | c :: cs => 1 + candWeight c + candsWeight cs

end

mutual

/-- All leaf elements of a candidate, scopes flattened recursively. -/
def candLeaves : Cand → List Loc
  | .leaf le => [le]
  | .scope _ inner => candsLeaves inner

def candsLeaves : List Cand → List Loc
  | [] => []
  | c :: cs => candLeaves c ++ candsLeaves cs

end

/-- The intermediate record pushed onto `orderedTabbables` (the unused
`item` field of the source is omitted); for a plain element `content` is
the singleton of that element. -/
structure Sortable where
  documentOrder : Nat
  tabIndex : Int
  isScope : Bool
  content : List Loc

/-- `sortOrderedTabbables(a, b)` (src/index.js lines 211-215). -/
def sortOrderedTabbables (a b : Sortable) : Int :=
  if a.tabIndex == b.tabIndex then
    (a.documentOrder : Int) - (b.documentOrder : Int)
  else a.tabIndex - b.tabIndex

/-- `a` sorts no later than `b` under the `sortOrderedTabbables`
comparator, as JavaScript `Array.prototype.sort` interprets it. -/
def ordLe (a b : Sortable) : Bool :=
  decide (sortOrderedTabbables a b ≤ 0)

/-- Insert into an already sorted list (stable: ties go after earlier
elements already placed). -/
def insertSorted (le : α → α → Bool) (x : α) : List α → List α
  | [] => [x]
  | y :: ys => if le x y then x :: y :: ys else y :: insertSorted le x ys

/-- A stable sort modelling JavaScript `Array.prototype.sort` with a
consistent comparator. -/
def sortLe (le : α → α → Bool) (l : List α) : List α :=
  l.foldr (insertSorted le) []

/-- The single `forEach` pass of `sortByOrder`, splitting candidates into
the regular (tab index 0) bucket and the `orderedTabbables` records, with
`i` the running document-order index; `sorter` is applied to the inner
candidates of a scope. -/
def classifyWith (sorter : List Cand → List Loc) :
    Nat → List Cand → List Loc × List Sortable
  | _, [] => ([], [])
  | i, c :: rest =>
    let isScope := match c with | .scope _ _ => true | .leaf _ => false
    let element := match c with | .scope host _ => host | .leaf le => le
    let candidateTabindex := getTabindex element.elem isScope
    let content := match c with | .scope _ inner => sorter inner | .leaf le => [le]
    let p := classifyWith sorter (i + 1) rest
    if candidateTabindex == 0 then (content ++ p.1, p.2)
    else (p.1, Sortable.mk i candidateTabindex isScope content :: p.2)

/-- `sortByOrder(candidates)` (src/index.js lines 517-549), with explicit
fuel bounding the recursion into scopes (always sufficient at the value
`sortByOrder` supplies). -/
def sortByOrderF : Nat → List Cand → List Loc
  | 0, _ => []
  | fuel + 1, cands =>
    let p := classifyWith (sortByOrderF fuel) 0 cands
    ((sortLe ordLe p.2).foldl (fun acc s => acc ++ s.content) []) ++ p.1

def sortByOrder (cands : List Cand) : List Loc :=
  sortByOrderF (candsWeight cands + 1) cands

/-- The `IterativeOptions` of `getCandidatesIteratively`. -/
structure IterOpts where
  filter : Elem → List Elem → Bool
  flatten : Bool
  shadow : ShadowOpt
  shadowRootFilter : Option (Elem → Bool)

/-- The shadow root obtained for an element:
`element.shadowRoot || (typeof getShadowRoot === 'function' && getShadowRoot(element))`;
`undisclosed` models the probe answering `true`. -/
inductive ShadowRes : Type where
  | noShadow
  | undisclosed
  | root (inert : Bool) (kids : List Elem)

def resolveShadow (so : ShadowOpt) (e : Elem) : ShadowRes :=
  if e.hasShadow then .root e.shadowInert e.shadowChildren
  else
    match so with
    | .probe f => if f e.data == some true then .undisclosed else .noShadow
    | _ => .noShadow

/-- Total element weight of a queue of located elements. -/
def locsWeight (q : List Loc) : Nat :=
  (q.map (fun le => elemWeight le.elem)).sum

/-- A slot's scope content: `assignedElements()` if nonempty, else the
slot's light-DOM children. -/
def slotContent (e : Elem) : List Elem :=
  if !e.assigned.isEmpty then e.assigned else e.children

/-- The children recursed into for a resolved shadow: the element's own
light children for an undisclosed shadow, the shadow root's children
otherwise. -/
def shadowKids (e : Elem) : ShadowRes → List Elem
  | .undisclosed => e.children
  | .root _ ks => ks
  | .noShadow => []

/-- `!isInert(shadowRoot, false) && (!shadowRootFilter || shadowRootFilter(element))`. -/
def validShadowRootB (io : IterOpts) (e : Elem) (sr : ShadowRes) : Bool :=
  (match sr with | .root i _ => !i | _ => true) &&
    (match io.shadowRootFilter with | some f => f e | none => true)

def hasShadowResB : ShadowRes → Bool
  | .noShadow => false
  | _ => true

/-- The candidate acceptance test of the iterative collector:
`validCandidate && options.filter(element) && (includeContainer || !elements.includes(element))`. -/
def selfCands (io : IterOpts) (origRootIds : List Nat) (includeContainer : Bool)
    (le : Loc) : List Cand :=
  if matchesCandidateSelector le.elem le.ctx && io.filter le.elem le.ctx &&
      (includeContainer || !(origRootIds.contains le.elem.data.id)) then
    [Cand.leaf le]
  else []

/-- Locate a list of elements under parent `p` with ancestor chain `ctx`. -/
def locate (p : Elem) (ctx : List Elem) (es : List Elem) : List Loc :=
  es.map (fun c => Loc.mk c (p :: ctx))

/-- The work-queue loop of `getCandidatesIteratively` (src/index.js lines
101-183).  `origRootIds` are the ids of the `elements` argument of the
current invocation (consulted by `elements.includes(element)`); nested
slot/shadow recursions start a fresh invocation with their own roots.
`fuel` bounds the loop and is always sufficient at the value supplied by
`getCandidatesIteratively`. -/
def gciGoF (io : IterOpts) : Nat → List Nat → Bool → List Loc → List Cand
  | 0, _, _, _ => []
  | _, _, _, [] => []
  | fuel + 1, origRootIds, includeContainer, le :: rest =>
    let e := le.elem
    if isInert e le.ctx false then gciGoF io fuel origRootIds includeContainer rest
    else if e.data.tagName == "SLOT" then
      let nested := gciGoF io fuel ((slotContent e).map (fun c => c.data.id)) true
        (locate e le.ctx (slotContent e))
      (if io.flatten then nested else [Cand.scope le nested]) ++
        gciGoF io fuel origRootIds includeContainer rest
    else
      let self := selfCands io origRootIds includeContainer le
      let shadowRes := resolveShadow io.shadow e
      if hasShadowResB shadowRes && validShadowRootB io e shadowRes then
        let nested := gciGoF io fuel
          ((shadowKids e shadowRes).map (fun c => c.data.id)) true
          (locate e le.ctx (shadowKids e shadowRes))
        (self ++ (if io.flatten then nested else [Cand.scope le nested])) ++
          gciGoF io fuel origRootIds includeContainer rest
      else
        self ++ gciGoF io fuel origRootIds includeContainer
          (locate e le.ctx e.children ++ rest)

/-- `getCandidatesIteratively(elements, includeContainer, options)`. -/
def getCandidatesIteratively (io : IterOpts) (includeContainer : Bool)
    (roots : List Loc) : List Cand :=
  gciGoF io (locsWeight roots + 1) (roots.map (fun le => le.elem.data.id))
    includeContainer roots

/-- `tabbable(el, options)` (src/index.js lines 551-570). -/
def tabbable (env : Env) (opts : TOptions) (el : Elem) (rootCtx : List Elem) :
    List Loc :=
  let cands : List Cand :=
    match opts.shadow with
    | .disabled =>
      (getCandidates opts el rootCtx
        (fun e ctx => isNodeMatchingSelectorTabbable env opts e ctx)).map Cand.leaf
    | so =>
      getCandidatesIteratively
        ⟨fun e ctx => isNodeMatchingSelectorTabbable env opts e ctx, false, so,
          some isValidShadowRootTabbable⟩
        opts.includeContainer [Loc.mk el rootCtx]
  sortByOrder cands

/-- `focusable(el, options)` (src/index.js lines 572-591); in flatten mode
the iterative collector only ever produces leaves, extracted here. -/
def focusable (env : Env) (opts : TOptions) (el : Elem) (rootCtx : List Elem) :
    List Loc :=
  match opts.shadow with
  | .disabled =>
    getCandidates opts el rootCtx
      (fun e ctx => isNodeMatchingSelectorFocusable env opts e ctx)
  | so =>
    (getCandidatesIteratively
      ⟨fun e ctx => isNodeMatchingSelectorFocusable env opts e ctx, true, so, none⟩
      opts.includeContainer [Loc.mk el rootCtx]).filterMap
      (fun c => match c with | .leaf le => some le | .scope _ _ => none)

/-! ## Spec-side definitions (for the refinement claims) -/

def candIsScope : Cand → Bool
  | .leaf _ => false
  | .scope _ _ => true

/-- The effective tab index the sorter uses for an item: leaf elements are
not scopes, scope hosts are. -/
def candTix : Cand → Int
  | .leaf le => getTabindex le.elem false
  | .scope host _ => getTabindex host.elem true

/-- Splice an item flat: a single element, or a scope's inner list sorted
by `sorter`. -/
def spliceWith (sorter : List Cand → List Loc) : Cand → List Loc
  | .leaf le => [le]
  | .scope _ inner => sorter inner

/-- Lexicographic order on (tab index, original position): tab index
ascending, ties broken by ascending position. -/
def lexLe (a b : Int × Nat) : Bool :=
  decide (a.1 < b.1) || (a.1 == b.1 && decide (a.2 ≤ b.2))

/-- Modelled from the spec (claim C3): sort the ordered bucket (items with
effective tab index > 0) by tab index ascending, ties by ascending original
position, splicing each scope's recursively sorted content flat at its
position; then append the regular bucket (tab index exactly 0) in original
document order, scopes likewise recursively sorted and spliced. -/
def sortByOrderSpecF : Nat → List Cand → List Loc
  | 0, _ => []
  | fuel + 1, cands =>
    let items := cands.enum
    let pos := items.filter (fun it => decide (0 < candTix it.2))
    let sortedPos :=
      sortLe (fun a b => lexLe (candTix a.2, a.1) (candTix b.2, b.1)) pos
    let zeros := items.filter (fun it => candTix it.2 == 0)
    sortedPos.flatMap (fun it => spliceWith (sortByOrderSpecF fuel) it.2) ++
      zeros.flatMap (fun it => spliceWith (sortByOrderSpecF fuel) it.2)

def sortByOrderSpec (cands : List Cand) : List Loc :=
  sortByOrderSpecF (candsWeight cands + 1) cands

mutual

/-- Every effective tab index in a candidate tree is nonnegative (the state
in which the sorter receives candidates, negative-index items having been
excluded upstream). -/
def candTixOk : Cand → Bool
  | .leaf le => decide (0 ≤ getTabindex le.elem false)
  | .scope host inner => decide (0 ≤ getTabindex host.elem true) && candsTixOk inner

def candsTixOk : List Cand → Bool
  | [] => true
  | c :: cs => candTixOk c && candsTixOk cs

end

/-! ## Concrete instances used by witnesses and counterexamples -/

/-- A plain visible `<div>`-like element datum; concrete nodes below adjust
individual fields. -/
def baseData : ElemData :=
  ⟨0, "DIV", false, false, false, none, none, false, "text", false, "",
    false, false, 1, 10, 10, false, 0, none⟩

def mkLeaf (d : ElemData) : Elem :=
  .mk d [] [] false false []

/-- An environment with the tree attached, `CSS.escape` available and an
empty root scope. -/
def cEnv : Env := ⟨true, true, fun _ => []⟩

/-- Default options: no container, default display check, no shadow
support. -/
def cOpts : TOptions := ⟨false, none, .disabled⟩

def cBtnData : ElemData := { baseData with id := 7, tagName := "BUTTON" }

def cBtn : Elem := mkLeaf cBtnData

/-- An `<audio>` without `controls`, native tab index −1, no authored
`tabindex` attribute (Chrome's defaults). -/
def c9AudioData : ElemData :=
  { baseData with id := 20, tagName := "AUDIO", tabIndexProp := -1 }

/-- A `<video controls tabindex="x">` whose authored attribute does not
parse as an integer, native tab index −1. -/
def c9VideoData : ElemData :=
  { baseData with
    id := 21
    tagName := "VIDEO"
    hasControls := true
    tabIndexProp := -1
    tabindexAttr := some "x" }

/-- A node with computed style `visibility: hidden`. -/
def c7HiddenData : ElemData := { baseData with id := 30, visibilityHidden := true }

/-- Options with `displayCheck: 'none'`. -/
def cOptsNone : TOptions := ⟨false, some "none", .disabled⟩

/-- An environment whose tree is detached from the main document. -/
def cEnvDetached : Env := ⟨false, true, fun _ => []⟩

def cOptsFull : TOptions := ⟨false, some "full", .disabled⟩

def cOptsLegacy : TOptions := ⟨false, some "legacy-full", .disabled⟩

def cOptsNZA : TOptions := ⟨false, some "non-zero-area", .disabled⟩

def c8InputData : ElemData := { baseData with id := 41, tagName := "INPUT" }

/-- A closed `<details>` element containing the C8 input. -/
def c8ClosedDetails : Elem :=
  .mk { baseData with id := 40, tagName := "DETAILS" } [mkLeaf c8InputData] []
    false false []

def c8ZeroAreaData : ElemData :=
  { baseData with id := 42, rectWidth := 0, rectHeight := 0 }

/-- An environment with `CSS.escape` unavailable. -/
def c5Env : Env := ⟨true, false, fun _ => []⟩

def c4R1Data : ElemData :=
  { baseData with
    id := 1
    tagName := "INPUT"
    typeAttr := "radio"
    name := "r" }

def c4R2Data : ElemData :=
  { baseData with
    id := 2
    tagName := "INPUT"
    typeAttr := "radio"
    name := "r"
    checked := true }

def c4R3Data : ElemData :=
  { baseData with
    id := 3
    tagName := "INPUT"
    typeAttr := "radio"
    name := "r" }

def c4R1 : Elem := mkLeaf c4R1Data

def c4R2 : Elem := mkLeaf c4R2Data

def c4R3 : Elem := mkLeaf c4R3Data

/-- The common container of the three same-name radios. -/
def c4Container : Elem :=
  .mk { baseData with id := 4 } [c4R1, c4R2, c4R3] [] false false []

/-- Environment whose root scope holds exactly the three radios. -/
def c4Env : Env := ⟨true, true, fun _ => [c4R1Data, c4R2Data, c4R3Data]⟩

/-- A radio with no `name`. -/
def c4UnnamedData : ElemData :=
  { baseData with id := 55, tagName := "INPUT", typeAttr := "radio" }

def c6InputData : ElemData := { baseData with id := 60, tagName := "INPUT" }

/-- A disabled fieldset with no legend, containing the C6 input. -/
def c6Fieldset : Elem :=
  .mk { baseData with id := 61, tagName := "FIELDSET", disabled := true }
    [mkLeaf c6InputData] [] false false []

def c6LegendInputData : ElemData := { baseData with id := 62, tagName := "INPUT" }

/-- A legend holding the exempted C6 input. -/
def c6Legend : Elem :=
  .mk { baseData with id := 63, tagName := "LEGEND" }
    [mkLeaf c6LegendInputData] [] false false []

/-- A disabled fieldset whose first child is the legend above. -/
def c6FieldsetL : Elem :=
  .mk { baseData with id := 64, tagName := "FIELDSET", disabled := true }
    [c6Legend] [] false false []

/-- A container holding the concrete button, for the C1 witness. -/
def c1Root : Elem := .mk { baseData with id := 70 } [cBtn] [] false false []

/-- A slot bearing both a `tabindex` attribute and `contenteditable`. -/
def c10SlotData : ElemData :=
  { baseData with
    id := 80
    tagName := "SLOT"
    tabindexAttr := some "0"
    contenteditableAttr := some "" }

def c10Slot : Elem := mkLeaf c10SlotData

def c10Root : Elem := .mk { baseData with id := 81 } [c10Slot] [] false false []

def c3E1 : Elem := mkLeaf { baseData with id := 90, tabIndexProp := 2 }

def c3E2 : Elem := mkLeaf { baseData with id := 91 }

def c3E3 : Elem := mkLeaf { baseData with id := 92, tabIndexProp := 1 }

def c3E4 : Elem := mkLeaf { baseData with id := 93, tabIndexProp := 1 }

/-- A small candidate list with positive, zero and scoped entries for the
C3 witness. -/
def c3Cands : List Cand :=
  [Cand.leaf ⟨c3E1, []⟩, Cand.leaf ⟨c3E2, []⟩,
    Cand.scope ⟨c3E4, []⟩ [Cand.leaf ⟨c3E3, []⟩]]

/-- A radio whose `name` contains a double quote, breaking the raw
selector interpolation. -/
def c5RadioData : ElemData :=
  { baseData with
    id := 50
    tagName := "INPUT"
    typeAttr := "radio"
    name := "a\"b" }

/-! ## Theorems -/

/-- Claim C2: for every node and fixed options, if the single-node query
`isTabbable` returns true then the single-node query `isFocusable` also
returns true. -/
theorem c2_isTabbable_implies_isFocusable (env : Env) (opts : TOptions)
    (e : Elem) (ctx : List Elem) (h : isTabbableQ env opts e ctx = true) :
    isFocusableQ env opts e ctx = true := by
  by_cases hm : matchesCandidateSelector e ctx = true
  · have hT : isNodeMatchingSelectorTabbable env opts e ctx = true := by
      simpa [isTabbableQ, hm] using h
    have hF : isNodeMatchingSelectorFocusable env opts e ctx = true := by
      unfold isNodeMatchingSelectorTabbable at hT
      simp only [Bool.not_eq_true'] at hT
      have hc := (Bool.or_eq_false_iff.mp hT).2
      simpa using hc
    simp [isFocusableQ, matchesFocusableCandidateSelector, hm, hF]
  · have hm0 : matchesCandidateSelector e ctx = false := by
      cases hmc : matchesCandidateSelector e ctx
      · rfl
      · exact absurd hmc hm
    simp [isTabbableQ, hm0] at h

/-- Witness for C2: a concrete button is tabbable, hence focusable. -/
theorem c2_witness : isFocusableQ cEnv cOpts cBtn [] = true :=
  c2_isTabbable_implies_isFocusable cEnv cOpts cBtn [] (by decide)

/-- Claim C9 counterexample: `getTabindex` normalizes an `<audio>` without
`controls` (negative native tab index, no authored attribute) to 0, though
the claim restricts normalization to audio/video/details *with controls*;
and it normalizes a `<video controls>` whose authored `tabindex` attribute
is present but unparseable, though the claim requires that no explicit
attribute was authored. -/
theorem c9_counterexample :
    getTabindex (mkLeaf c9AudioData) false = 0 ∧
    c9AudioData.hasControls = false ∧
    c9AudioData.tabIndexProp = -1 ∧
    c9AudioData.tabindexAttr = none ∧
    getTabindex (mkLeaf c9VideoData) false = 0 ∧
    c9VideoData.tabindexAttr = some "x" ∧
    c9VideoData.tabIndexProp = -1 :=
  ⟨rfl, rfl, rfl, rfl, rfl, rfl, rfl⟩

/-- Claim C9 as amended: the effective tab index equals the native tab
index, except that a negative native tab index is normalized to 0 exactly
for audio/video/details elements (with or without controls), contenteditable
elements and scope nodes, and only when the authored `tabindex` attribute is
absent or does not parse as an integer. -/
theorem c9_amended (e : Elem) (s : Bool) :
    (0 ≤ e.data.tabIndexProp → getTabindex e s = e.data.tabIndexProp) ∧
    (e.data.tabIndexProp < 0 →
      (s = true ∨ e.data.tagName = "AUDIO" ∨ e.data.tagName = "VIDEO" ∨
        e.data.tagName = "DETAILS" ∨ e.data.isContentEditable = true) →
      jsParseInt e.data.tabindexAttr = none → getTabindex e s = 0) ∧
    (e.data.tabIndexProp < 0 →
      ¬(s = true ∨ e.data.tagName = "AUDIO" ∨ e.data.tagName = "VIDEO" ∨
        e.data.tagName = "DETAILS" ∨ e.data.isContentEditable = true) →
      getTabindex e s = e.data.tabIndexProp) ∧
    ((jsParseInt e.data.tabindexAttr).isSome = true →
      getTabindex e s = e.data.tabIndexProp) := by
  refine ⟨?_, ?_, ?_, ?_⟩
  · intro h
    unfold getTabindex
    rw [if_neg (by omega)]
  · intro hneg hset hparse
    have hb : (s || e.data.tagName == "AUDIO" || e.data.tagName == "VIDEO" ||
        e.data.tagName == "DETAILS" || e.data.isContentEditable) = true := by
      rcases hset with h | h | h | h | h <;> simp [h]
    unfold getTabindex
    simp [hneg, hb, hparse]
  · intro hneg hnot
    simp only [not_or, Bool.not_eq_true] at hnot
    obtain ⟨h1, h2, h3, h4, h5⟩ := hnot
    have hb : (s || e.data.tagName == "AUDIO" || e.data.tagName == "VIDEO" ||
        e.data.tagName == "DETAILS" || e.data.isContentEditable) = false := by
      simp [h1, h2, h3, h4, h5]
    unfold getTabindex
    simp [hneg, hb]
  · intro hsome
    have hn : (jsParseInt e.data.tabindexAttr).isNone = false := by
      cases hj : jsParseInt e.data.tabindexAttr
      · rw [hj] at hsome; simp at hsome
      · rfl
    unfold getTabindex
    by_cases hneg : e.data.tabIndexProp < 0 <;> simp [hneg, hn]

/-- Witness for C9's amended claim: the audio-without-controls node is
normalized to 0. -/
theorem c9_witness : getTabindex (mkLeaf c9AudioData) false = 0 :=
  (c9_amended (mkLeaf c9AudioData) false).2.1 (by decide)
    (Or.inr (Or.inl rfl)) rfl

/-- Claim C7 counterexample: under `displayCheck: 'none'`, a node whose
computed visibility is `hidden` is still reported hidden, so `isHidden` is
not constantly false in that mode. -/
theorem c7_counterexample :
    cOptsNone.displayCheck = some "none" ∧
    isHidden cEnv cOptsNone (mkLeaf c7HiddenData) [] = true :=
  ⟨rfl, rfl⟩

/-- Claim C7 as amended: under `displayCheck: 'none'`, `isHidden` reports a
node hidden only through the mode-independent checks (computed visibility
`hidden`, or sitting under a closed `<details>`); when neither applies the
node is never reported hidden. -/
theorem c7_amended (env : Env) (opts : TOptions) (e : Elem) (ctx : List Elem)
    (hdc : opts.displayCheck = some "none")
    (hvis : e.data.visibilityHidden = false)
    (hcd : hiddenByClosedDetails e ctx = false) :
    isHidden env opts e ctx = false := by
  unfold isHidden
  simp [hdc, hvis, hcd]

/-- Witness for C7's amended claim at a visible leaf node. -/
theorem c7_witness : isHidden cEnv cOptsNone (mkLeaf baseData) [] = false :=
  c7_amended cEnv cOptsNone (mkLeaf baseData) [] rfl rfl rfl

/-- Claim C8 counterexample: a detached input sitting under a closed
`<details>` is reported hidden even under `displayCheck: 'legacy-full'`,
contradicting "under 'legacy-full' it is reported visible". -/
theorem c8_counterexample :
    cEnvDetached.attached = false ∧
    cOptsLegacy.displayCheck = some "legacy-full" ∧
    isHidden cEnvDetached cOptsLegacy (mkLeaf c8InputData) [c8ClosedDetails] = true :=
  ⟨rfl, rfl, rfl⟩

/-- Claim C8 as amended: provided the node does not fall in the
undisclosed-shadow fallback and is not hidden by the mode-independent
checks (computed visibility `hidden`, closed `<details>` ancestry), a
detached node is reported hidden under `displayCheck` unset or `'full'`,
reported visible under `'legacy-full'`; and under `'non-zero-area'` a node
is reported hidden exactly when its bounding box has zero width and zero
height, regardless of attachment.  (For the hidden verdict under
unset/`'full'` the mode-independent checks need not be excluded, since they
also report hidden.) -/
theorem c8_amended :
    (∀ (env : Env) (opts : TOptions) (e : Elem) (ctx : List Elem),
      env.attached = false →
      undisclosedShadowHit opts.shadow ctx = false →
      (opts.displayCheck = none ∨ opts.displayCheck = some "full") →
      isHidden env opts e ctx = true) ∧
    (∀ (env : Env) (opts : TOptions) (e : Elem) (ctx : List Elem),
      env.attached = false →
      undisclosedShadowHit opts.shadow ctx = false →
      opts.displayCheck = some "legacy-full" →
      e.data.visibilityHidden = false →
      hiddenByClosedDetails e ctx = false →
      isHidden env opts e ctx = false) ∧
    (∀ (env : Env) (opts : TOptions) (e : Elem) (ctx : List Elem),
      opts.displayCheck = some "non-zero-area" →
      e.data.visibilityHidden = false →
      hiddenByClosedDetails e ctx = false →
      (isHidden env opts e ctx = true ↔ isZeroArea e = true)) := by
  refine ⟨?_, ?_, ?_⟩
  · intro env opts e ctx hatt hhit hdc
    unfold isHidden
    by_cases hvis : e.data.visibilityHidden = true
    · simp [hvis]
    · by_cases hcd : hiddenByClosedDetails e ctx = true
      · simp [hvis, hcd]
      · rcases hdc with h | h <;>
          simp [hvis, hcd, h, hhit, hatt]
  · intro env opts e ctx hatt hhit hdc hvis hcd
    unfold isHidden
    simp [hatt, hhit, hdc, hvis, hcd]
  · intro env opts e ctx hdc hvis hcd
    unfold isHidden
    simp [hdc, hvis, hcd]

/-- Witness for C8's amended claim: a detached plain node is hidden under
`'full'`, visible under `'legacy-full'`; a zero-area node under
`'non-zero-area'` is hidden exactly when its box is zero. -/
theorem c8_witness :
    isHidden cEnvDetached cOptsFull (mkLeaf baseData) [] = true ∧
    isHidden cEnvDetached cOptsLegacy (mkLeaf baseData) [] = false ∧
    (isHidden cEnv cOptsNZA (mkLeaf c8ZeroAreaData) [] = true ↔
      isZeroArea (mkLeaf c8ZeroAreaData) = true) :=
  ⟨c8_amended.1 cEnvDetached cOptsFull (mkLeaf baseData) [] rfl rfl (Or.inr rfl),
    c8_amended.2.1 cEnvDetached cOptsLegacy (mkLeaf baseData) [] rfl rfl rfl rfl rfl,
    c8_amended.2.2 cEnv cOptsNZA (mkLeaf c8ZeroAreaData) [] rfl rfl rfl⟩

/-- Claim C5: when a radio's name cannot be used to build a valid selector
and no CSS-escaping capability is available, the failure is caught locally
(`isTabbableRadio` never lets an exception escape), a diagnostic is
reported, and the radio is treated as non-tabbable (result `false`). -/
theorem c5_selector_failure_fails_closed :
    (∀ (env : Env) (d : ElemData), ∃ b : Bool, (isTabbableRadioRun env d).2 = .ok b) ∧
    (∀ (env : Env) (d : ElemData),
      env.cssEscape = false → selectorNameValid d.name = false → d.name ≠ "" →
      (isTabbableRadioRun env d).2 = .ok false ∧
        (isTabbableRadioRun env d).1 ≠ []) := by
  constructor
  · intro env d
    cases hres : (isTabbableRadioRun env d).2 with
    | ok b => exact ⟨b, rfl⟩
    | error msg =>
      exfalso
      unfold isTabbableRadioRun queryRadiosRaw at hres
      split at hres
      · simp at hres
      · split at hres
        · simp at hres
        · split at hres
          · simp at hres
          · simp at hres
  · intro env d hesc hvalid hname
    have hn : (d.name == "") = false := by
      simpa using hname
    unfold isTabbableRadioRun queryRadiosRaw
    simp [hn, hesc, hvalid]

/-- Witness for C5 at a radio named `a"b` with no `CSS.escape`. -/
theorem c5_witness :
    (isTabbableRadioRun c5Env c5RadioData).2 = .ok false ∧
    (isTabbableRadioRun c5Env c5RadioData).1 ≠ [] :=
  c5_selector_failure_fails_closed.2 c5Env c5RadioData rfl rfl (by decide)

/-- On the success path (escaping available, or a raw name that builds a
valid selector), `isTabbableRadio` is the checked-radio test over the
node's radio group. -/
theorem isTabbableRadio_eq_of_selector_ok (env : Env) (d : ElemData)
    (h : env.cssEscape = true ∨ selectorNameValid d.name = true) :
    isTabbableRadio env d =
      (if d.name == "" then true
        else
          match getCheckedRadio (radioGroup env d) d.form with
          | none => true
          | some c => c.id == d.id) := by
  unfold isTabbableRadio isTabbableRadioRun queryRadiosRaw
  by_cases hn : (d.name == "") = true
  · simp [hn]
  · rcases h with h | h
    · simp [hn, h]
    · by_cases he : env.cssEscape = true
      · simp [hn, he]
      · have he0 : env.cssEscape = false := by simpa using he
        simp [hn, he0, h]

/-- Claim C4: a named radio is non-tabbable exactly when some member of its
group (the same-name radios of its owning form's scope, or its containing
root's scope when it has no form owner — the scope query being the external
capability `Env.radioScope`) is checked with the same form owner and is not
this radio; a radio with no name is always tabbable.  Concretely, for three
same-name radios with the second checked, `tabbable` over their common
container returns only the second while `focusable` returns all three. -/
theorem c4_radio_grouping :
    (∀ (env : Env) (d : ElemData), d.name = "" → isTabbableRadio env d = true) ∧
    (∀ (env : Env) (d : ElemData),
      (env.cssEscape = true ∨ selectorNameValid d.name = true) →
      (∀ r1, r1 ∈ radioGroup env d → ∀ r2, r2 ∈ radioGroup env d →
        r1.checked = true → r1.form = d.form →
        r2.checked = true → r2.form = d.form → r1 = r2) →
      (isNonTabbableRadio env d = true ↔
        (isRadio d = true ∧ d.name ≠ "" ∧
          ∃ r, r ∈ radioGroup env d ∧ r.checked = true ∧ r.form = d.form ∧
            r.id ≠ d.id))) ∧
    (tabbable c4Env cOpts c4Container [] = [⟨c4R2, [c4Container]⟩] ∧
      focusable c4Env cOpts c4Container [] =
        [⟨c4R1, [c4Container]⟩, ⟨c4R2, [c4Container]⟩, ⟨c4R3, [c4Container]⟩]) := by
  refine ⟨?_, ?_, rfl, rfl⟩
  · intro env d hname
    rw [isTabbableRadio_eq_of_selector_ok env d
      (Or.inr (by simp [hname, selectorNameValid]))]
    simp [hname]
  · intro env d hsel huniq
    rw [show isNonTabbableRadio env d = (isRadio d && !isTabbableRadio env d) from rfl]
    rw [isTabbableRadio_eq_of_selector_ok env d hsel]
    by_cases hn : (d.name == "") = true
    · simp only [hn, if_true]
      constructor
      · intro hcontra
        simp at hcontra
      · rintro ⟨-, hne, -⟩
        exact absurd (by simpa using hn) hne
    · have hne : d.name ≠ "" := by simpa using hn
      simp only [hn, if_false]
      cases hf : getCheckedRadio (radioGroup env d) d.form with
      | none =>
        simp only [Bool.not_true, Bool.and_false]
        constructor
        · intro hcontra
          simp at hcontra
        · rintro ⟨-, -, r, hrmem, hrchk, hrform, -⟩
          have : (radioGroup env d).find?
              (fun x => x.checked && x.form == d.form) = none := hf
          rw [List.find?_eq_none] at this
          exact absurd (by simp [hrchk, hrform]) (this r hrmem)
      | some c =>
        have hf2 : (radioGroup env d).find?
            (fun r => r.checked && r.form == d.form) = some c := hf
        have hcp := List.find?_some hf2
        have hcmem : c ∈ radioGroup env d :=
          List.mem_of_find?_eq_some hf2
        simp only [Bool.and_eq_true, beq_iff_eq] at hcp
        have hcchk : c.checked = true := hcp.1
        have hcform : c.form = d.form := hcp.2
        constructor
        · intro hlhs
          have hrad : isRadio d = true := by
            cases hr : isRadio d
            · rw [hr] at hlhs
              simp at hlhs
            · rfl
          rw [hrad] at hlhs
          simp at hlhs
          exact ⟨hrad, hne, c, hcmem, hcchk, hcform, hlhs⟩
        · rintro ⟨hrad, -, r, hrmem, hrchk, hrform, hrid⟩
          have hcr : c = r := huniq c hcmem r hrmem hcchk hcform hrchk hrform
          substs hcr
          rw [hrad]
          simp [hrid]

/-- Witness for C4: an unnamed radio is tabbable; the first of the three
concrete same-name radios (second one checked) is classified
non-tabbable. -/
theorem c4_witness :
    isTabbableRadio cEnv c4UnnamedData = true ∧
    isNonTabbableRadio c4Env c4R1Data = true :=
  ⟨c4_radio_grouping.1 cEnv c4UnnamedData rfl,
    (c4_radio_grouping.2.1 c4Env c4R1Data (Or.inl rfl) (by decide)).mpr
      ⟨rfl, by decide, c4R2Data, by decide, rfl, rfl, by decide⟩⟩

/-- One unfolding step of the fieldset ancestor walk. -/
theorem fieldsetWalk_cons (nid : Nat) (p : Elem) (l : List Elem) :
    fieldsetWalk nid (p :: l) =
      (if isDisabledFieldset p then
        match p.children.find? (fun c => c.data.tagName == "LEGEND") with
        | some legend =>
          if l.any isDisabledFieldset then true else !elemContains legend nid
        | none => true
      else fieldsetWalk nid l) := rfl

/-- The walk skips a prefix of ancestors containing no disabled
fieldset. -/
theorem fieldsetWalk_append_clean (nid : Nat) (pre ctx : List Elem)
    (h : ∀ a ∈ pre, isDisabledFieldset a = false) :
    fieldsetWalk nid (pre ++ ctx) = fieldsetWalk nid ctx := by
  induction pre with
  | nil => rfl
  | cons p pre ih =>
    have hp : isDisabledFieldset p = false := h p (by simp)
    rw [List.cons_append, fieldsetWalk_cons, if_neg (by simp [hp])]
    exact ih (fun a ha => h a (by simp [ha]))

/-- A chain containing no disabled fieldset produces no exclusion. -/
theorem fieldsetWalk_clean (nid : Nat) (ctx : List Elem)
    (h : ∀ a ∈ ctx, isDisabledFieldset a = false) :
    fieldsetWalk nid ctx = false := by
  have := fieldsetWalk_append_clean nid ctx [] h
  simpa using this

/-- Claim C6: a form control whose nearest disabled-fieldset ancestor grants
no legend exemption (no first legend containing it, or the fieldset nested
in another disabled fieldset) is excluded, and exclusion fails both
classifiers; a form control under the first legend child of a fieldset not
nested in another disabled fieldset is not excluded by the fieldset rule
(the legend exemption, single level only). -/
theorem c6_fieldset_disable :
    (∀ (e : Elem) (ctx pre : List Elem) (f : Elem) (rest : List Elem),
      isFormControl e.data = true →
      ctx = pre ++ f :: rest →
      (∀ a ∈ pre, isDisabledFieldset a = false) →
      isDisabledFieldset f = true →
      (¬∃ lg, f.children.find? (fun c => c.data.tagName == "LEGEND") = some lg ∧
          elemContains lg e.data.id = true ∧
          (∀ a ∈ rest, isDisabledFieldset a = false)) →
      isDisabledFromFieldset e ctx = true) ∧
    (∀ (e : Elem) (ctx pre : List Elem) (f : Elem) (rest : List Elem) (lg : Elem),
      ctx = pre ++ f :: rest →
      (∀ a ∈ pre, isDisabledFieldset a = false) →
      f.children.find? (fun c => c.data.tagName == "LEGEND") = some lg →
      elemContains lg e.data.id = true →
      (∀ a ∈ rest, isDisabledFieldset a = false) →
      isDisabledFromFieldset e ctx = false) ∧
    (∀ (env : Env) (opts : TOptions) (e : Elem) (ctx : List Elem),
      isDisabledFromFieldset e ctx = true →
        isNodeMatchingSelectorFocusable env opts e ctx = false ∧
        isNodeMatchingSelectorTabbable env opts e ctx = false) := by
  refine ⟨?_, ?_, ?_⟩
  · intro e ctx pre f rest hfc hctx hclean hfdis hnex
    subst hctx
    unfold isDisabledFromFieldset
    rw [if_pos hfc, fieldsetWalk_append_clean _ _ _ hclean, fieldsetWalk_cons,
      if_pos hfdis]
    cases hf : f.children.find? (fun c => c.data.tagName == "LEGEND") with
    | none => rfl
    | some lg =>
      show (if rest.any isDisabledFieldset = true then true
        else !elemContains lg e.data.id) = true
      by_cases hany : rest.any isDisabledFieldset = true
      · rw [if_pos hany]
      · rw [if_neg hany]
        have hcln : ∀ a ∈ rest, isDisabledFieldset a = false := by
          intro a ha
          cases hda : isDisabledFieldset a
          · rfl
          · exact absurd (List.any_eq_true.mpr ⟨a, ha, hda⟩) hany
        cases hc : elemContains lg e.data.id
        · rfl
        · exact absurd ⟨lg, hf, hc, hcln⟩ hnex
  · intro e ctx pre f rest lg hctx hclean hf hcont hcln
    subst hctx
    unfold isDisabledFromFieldset
    by_cases hfc : isFormControl e.data = true
    · rw [if_pos hfc, fieldsetWalk_append_clean _ _ _ hclean, fieldsetWalk_cons]
      by_cases hfd : isDisabledFieldset f = true
      · rw [if_pos hfd, hf]
        have hany : rest.any isDisabledFieldset = false := by
          cases hh : rest.any isDisabledFieldset
          · rfl
          · obtain ⟨a, ha, hpa⟩ := List.any_eq_true.mp hh
            rw [hcln a ha] at hpa
            exact absurd hpa (by simp)
        show (if rest.any isDisabledFieldset = true then true
          else !elemContains lg e.data.id) = false
        rw [if_neg (by simp [hany]), hcont]
        rfl
      · rw [if_neg hfd]
        exact fieldsetWalk_clean _ _ hcln
    · rw [if_neg hfc]
  · intro env opts e ctx h
    constructor
    · unfold isNodeMatchingSelectorFocusable
      simp [h]
    · unfold isNodeMatchingSelectorTabbable isNodeMatchingSelectorFocusable
      simp [h]

/-! ### Helper lemmas about candidates, leaves and the sorter -/

theorem candsLeaves_append (l1 l2 : List Cand) :
    candsLeaves (l1 ++ l2) = candsLeaves l1 ++ candsLeaves l2 := by
  induction l1 with
  | nil => rfl
  | cons c cs ih => simp [candsLeaves, ih]

theorem candsLeaves_map_leaf (l : List Loc) : candsLeaves (l.map Cand.leaf) = l := by
  induction l with
  | nil => rfl
  | cons x xs ih => simp [candsLeaves, candLeaves, ih]

theorem mem_candsLeaves_of_mem {c : Cand} {cands : List Cand} (hc : c ∈ cands) :
    ∀ x ∈ candLeaves c, x ∈ candsLeaves cands := by
  induction cands with
  | nil => cases hc
  | cons d rest ih =>
    intro x hx
    rcases List.mem_cons.mp hc with rfl | hc2
    · simp [candsLeaves]
      exact Or.inl hx
    · simp [candsLeaves]
      exact Or.inr (ih hc2 x hx)

theorem mem_insertSorted {α : Type} (le : α → α → Bool) (x y : α) (l : List α) :
    x ∈ insertSorted le y l ↔ x = y ∨ x ∈ l := by
  induction l with
  | nil => simp [insertSorted]
  | cons z zs ih =>
    unfold insertSorted
    by_cases h : le y z = true
    · simp [h]
    · have h0 : le y z = false := by simpa using h
      simp [h0, ih]
      tauto

theorem mem_sortLe {α : Type} (le : α → α → Bool) (x : α) (l : List α) :
    x ∈ sortLe le l ↔ x ∈ l := by
  induction l with
  | nil => simp [sortLe]
  | cons y ys ih =>
    have : sortLe le (y :: ys) = insertSorted le y (sortLe le ys) := rfl
    rw [this, mem_insertSorted]
    simp [ih]

theorem foldl_append_content (l : List Sortable) (acc : List Loc) :
    l.foldl (fun a s => a ++ s.content) acc = acc ++ l.flatMap Sortable.content := by
  induction l generalizing acc with
  | nil => simp
  | cons s ss ih => simp [ih]

theorem mem_of_mem_enumFrom {α : Type} {it : Nat × α} :
    ∀ {i : Nat} {l : List α}, it ∈ List.enumFrom i l → it.2 ∈ l := by
  intro i l
  induction l generalizing i with
  | nil => intro h; cases h
  | cons a rest ih =>
    intro h
    rcases List.mem_cons.mp h with rfl | h2
    · simp
    · exact List.mem_cons_of_mem _ (ih h2)

/-- The regular bucket of the classification pass: the zero-tab-index
items, in order, spliced. -/
theorem classifyWith_fst (sorter : List Cand → List Loc) :
    ∀ (cands : List Cand) (i : Nat),
      (classifyWith sorter i cands).1 =
        ((List.enumFrom i cands).filter (fun it => candTix it.2 == 0)).flatMap
          (fun it => spliceWith sorter it.2) := by
  intro cands
  induction cands with
  | nil => intro i; simp [classifyWith]
  | cons c rest ih =>
    intro i
    cases c with
    | leaf le =>
      by_cases ht : (getTabindex le.elem false == 0) = true
      · simp [classifyWith, candTix, spliceWith, ht, ih]
      · have ht0 : (getTabindex le.elem false == 0) = false := by simpa using ht
        simp [classifyWith, candTix, spliceWith, ht0, ih]
    | scope host inner =>
      by_cases ht : (getTabindex host.elem true == 0) = true
      · simp [classifyWith, candTix, spliceWith, ht, ih]
      · have ht0 : (getTabindex host.elem true == 0) = false := by simpa using ht
        simp [classifyWith, candTix, spliceWith, ht0, ih]

/-- The ordered bucket of the classification pass: the nonzero-tab-index
items with their positions, in order. -/
theorem classifyWith_snd (sorter : List Cand → List Loc) :
    ∀ (cands : List Cand) (i : Nat),
      (classifyWith sorter i cands).2 =
        ((List.enumFrom i cands).filter (fun it => !(candTix it.2 == 0))).map
          (fun it =>
            Sortable.mk it.1 (candTix it.2) (candIsScope it.2)
              (spliceWith sorter it.2)) := by
  intro cands
  induction cands with
  | nil => intro i; simp [classifyWith]
  | cons c rest ih =>
    intro i
    cases c with
    | leaf le =>
      by_cases ht : (getTabindex le.elem false == 0) = true
      · simp [classifyWith, candTix, spliceWith, candIsScope, ht, ih]
      · have ht0 : (getTabindex le.elem false == 0) = false := by simpa using ht
        simp [classifyWith, candTix, spliceWith, candIsScope, ht0, ih]
    | scope host inner =>
      by_cases ht : (getTabindex host.elem true == 0) = true
      · simp [classifyWith, candTix, spliceWith, candIsScope, ht, ih]
      · have ht0 : (getTabindex host.elem true == 0) = false := by simpa using ht
        simp [classifyWith, candTix, spliceWith, candIsScope, ht0, ih]

/-- Everything the sorter emits is a leaf of its input. -/
theorem sortByOrderF_subset :
    ∀ (fuel : Nat) (cands : List Cand) (x : Loc),
      x ∈ sortByOrderF fuel cands → x ∈ candsLeaves cands := by
  intro fuel
  induction fuel with
  | zero => intro cands x hx; simp [sortByOrderF] at hx
  | succ fuel ih =>
    intro cands x hx
    have heq : sortByOrderF (fuel + 1) cands =
        ((sortLe ordLe (classifyWith (sortByOrderF fuel) 0 cands).2).foldl
          (fun acc s => acc ++ s.content) []) ++
          (classifyWith (sortByOrderF fuel) 0 cands).1 := rfl
    rw [heq, foldl_append_content, List.nil_append] at hx
    have hsplice : ∀ it : Nat × Cand, it ∈ List.enumFrom 0 cands →
        ∀ y ∈ spliceWith (sortByOrderF fuel) it.2, y ∈ candsLeaves cands := by
      intro it hit y hy
      have hmem : it.2 ∈ cands := mem_of_mem_enumFrom hit
      cases hc : it.2 with
      | leaf le =>
        rw [hc] at hy
        simp [spliceWith] at hy
        subst hy
        exact mem_candsLeaves_of_mem (hc ▸ hmem) y (by simp [candLeaves])
      | scope host inner =>
        rw [hc] at hy
        simp only [spliceWith] at hy
        have : y ∈ candsLeaves inner := ih inner y hy
        exact mem_candsLeaves_of_mem (hc ▸ hmem) y (by simpa [candLeaves] using this)
    rcases List.mem_append.mp hx with hx | hx
    · obtain ⟨s, hs, hys⟩ := List.mem_flatMap.mp hx
      have hs2 := (mem_sortLe _ _ _).mp hs
      rw [classifyWith_snd] at hs2
      obtain ⟨it, hit, hmk⟩ := List.mem_map.mp hs2
      have hitmem : it ∈ List.enumFrom 0 cands := (List.mem_filter.mp hit).1
      refine hsplice it hitmem x ?_
      have hcontent : s.content = spliceWith (sortByOrderF fuel) it.2 := by
        rw [← hmk]
      rw [hcontent] at hys
      exact hys
    · rw [classifyWith_fst] at hx
      obtain ⟨it, hit, hy⟩ := List.mem_flatMap.mp hx
      have hitmem : it ∈ List.enumFrom 0 cands := (List.mem_filter.mp hit).1
      exact hsplice it hitmem x hy

/-! ### The iterative collector: branch equations and the filter invariant -/

theorem gciGoF_zero (io : IterOpts) (orig : List Nat) (inc : Bool) (q : List Loc) :
    gciGoF io 0 orig inc q = [] := by
  cases q <;> simp [gciGoF]

theorem gciGoF_nil (io : IterOpts) (fuel : Nat) (orig : List Nat) (inc : Bool) :
    gciGoF io fuel orig inc [] = [] := by
  cases fuel <;> rfl

theorem gciGoF_cons_inert (io : IterOpts) (fuel : Nat) (orig : List Nat)
    (inc : Bool) (le : Loc) (rest : List Loc)
    (h : isInert le.elem le.ctx false = true) :
    gciGoF io (fuel + 1) orig inc (le :: rest) = gciGoF io fuel orig inc rest := by
  simp [gciGoF, h]

theorem gciGoF_cons_slot (io : IterOpts) (fuel : Nat) (orig : List Nat)
    (inc : Bool) (le : Loc) (rest : List Loc)
    (h1 : isInert le.elem le.ctx false = false)
    (h2 : (le.elem.data.tagName == "SLOT") = true) :
    gciGoF io (fuel + 1) orig inc (le :: rest) =
      (if io.flatten then
          gciGoF io fuel ((slotContent le.elem).map (fun c => c.data.id)) true
            (locate le.elem le.ctx (slotContent le.elem))
        else
          [Cand.scope le
            (gciGoF io fuel ((slotContent le.elem).map (fun c => c.data.id)) true
              (locate le.elem le.ctx (slotContent le.elem)))]) ++
        gciGoF io fuel orig inc rest := by
  simp [gciGoF, h1, h2]

theorem gciGoF_cons_shadow (io : IterOpts) (fuel : Nat) (orig : List Nat)
    (inc : Bool) (le : Loc) (rest : List Loc)
    (h1 : isInert le.elem le.ctx false = false)
    (h2 : (le.elem.data.tagName == "SLOT") = false)
    (h3 : (hasShadowResB (resolveShadow io.shadow le.elem) &&
      validShadowRootB io le.elem (resolveShadow io.shadow le.elem)) = true) :
    gciGoF io (fuel + 1) orig inc (le :: rest) =
      (selfCands io orig inc le ++
        (if io.flatten then
            gciGoF io fuel
              ((shadowKids le.elem (resolveShadow io.shadow le.elem)).map
                (fun c => c.data.id)) true
              (locate le.elem le.ctx
                (shadowKids le.elem (resolveShadow io.shadow le.elem)))
          else
            [Cand.scope le
              (gciGoF io fuel
                ((shadowKids le.elem (resolveShadow io.shadow le.elem)).map
                  (fun c => c.data.id)) true
                (locate le.elem le.ctx
                  (shadowKids le.elem (resolveShadow io.shadow le.elem))))])) ++
        gciGoF io fuel orig inc rest := by
  simp [gciGoF, h1, h2, h3]

theorem gciGoF_cons_dig (io : IterOpts) (fuel : Nat) (orig : List Nat)
    (inc : Bool) (le : Loc) (rest : List Loc)
    (h1 : isInert le.elem le.ctx false = false)
    (h2 : (le.elem.data.tagName == "SLOT") = false)
    (h3 : (hasShadowResB (resolveShadow io.shadow le.elem) &&
      validShadowRootB io le.elem (resolveShadow io.shadow le.elem)) = false) :
    gciGoF io (fuel + 1) orig inc (le :: rest) =
      selfCands io orig inc le ++
        gciGoF io fuel orig inc (locate le.elem le.ctx le.elem.children ++ rest) := by
  simp [gciGoF, h1, h2, h3]

/-- A candidate accepted by the iterative collector's element test passed
the structural selector and the classification filter. -/
theorem selfCands_mem (io : IterOpts) (orig : List Nat) (inc : Bool)
    (le x : Loc) (hx : x ∈ candsLeaves (selfCands io orig inc le)) :
    x = le ∧ io.filter le.elem le.ctx = true ∧
      matchesCandidateSelector le.elem le.ctx = true := by
  unfold selfCands at hx
  split at hx
  · rename_i hcond
    simp [candsLeaves, candLeaves] at hx
    subst hx
    simp only [Bool.and_eq_true] at hcond
    exact ⟨rfl, hcond.1.2, hcond.1.1⟩
  · simp [candsLeaves] at hx

/-- Every leaf the iterative collector emits passed the classification
filter and the structural selector, and is not a slot. -/
theorem gciGoF_leaves (io : IterOpts) :
    ∀ (fuel : Nat) (orig : List Nat) (inc : Bool) (q : List Loc) (x : Loc),
      x ∈ candsLeaves (gciGoF io fuel orig inc q) →
      io.filter x.elem x.ctx = true ∧
        matchesCandidateSelector x.elem x.ctx = true ∧
        (x.elem.data.tagName == "SLOT") = false := by
  intro fuel
  induction fuel with
  | zero =>
    intro orig inc q x hx
    rw [gciGoF_zero] at hx
    simp [candsLeaves] at hx
  | succ fuel ih =>
    intro orig inc q x hx
    cases q with
    | nil =>
      rw [gciGoF_nil] at hx
      simp [candsLeaves] at hx
    | cons le rest =>
      by_cases h1 : isInert le.elem le.ctx false = true
      · rw [gciGoF_cons_inert _ _ _ _ _ _ h1] at hx
        exact ih orig inc rest x hx
      · have h1f : isInert le.elem le.ctx false = false := by simpa using h1
        by_cases h2 : (le.elem.data.tagName == "SLOT") = true
        · rw [gciGoF_cons_slot _ _ _ _ _ _ h1f h2] at hx
          rw [candsLeaves_append] at hx
          rcases List.mem_append.mp hx with hx | hx
          · have hx2 : x ∈ candsLeaves (gciGoF io fuel
                ((slotContent le.elem).map (fun c => c.data.id)) true
                (locate le.elem le.ctx (slotContent le.elem))) := by
              by_cases hfl : io.flatten = true
              · rw [if_pos hfl] at hx
                exact hx
              · rw [if_neg hfl] at hx
                simpa [candsLeaves, candLeaves] using hx
            exact ih _ _ _ x hx2
          · exact ih orig inc rest x hx
        · have h2f : (le.elem.data.tagName == "SLOT") = false := by simpa using h2
          by_cases h3 : (hasShadowResB (resolveShadow io.shadow le.elem) &&
              validShadowRootB io le.elem (resolveShadow io.shadow le.elem)) = true
          · rw [gciGoF_cons_shadow _ _ _ _ _ _ h1f h2f h3] at hx
            rw [candsLeaves_append, candsLeaves_append] at hx
            rcases List.mem_append.mp hx with hx | hx
            · rcases List.mem_append.mp hx with hx | hx
              · obtain ⟨hxe, hfil, hmat⟩ := selfCands_mem _ _ _ _ _ hx
                subst hxe
                exact ⟨hfil, hmat, h2f⟩
              · have hx2 : x ∈ candsLeaves (gciGoF io fuel
                    ((shadowKids le.elem (resolveShadow io.shadow le.elem)).map
                      (fun c => c.data.id)) true
                    (locate le.elem le.ctx
                      (shadowKids le.elem (resolveShadow io.shadow le.elem)))) := by
                  by_cases hfl : io.flatten = true
                  · rw [if_pos hfl] at hx
                    exact hx
                  · rw [if_neg hfl] at hx
                    simpa [candsLeaves, candLeaves] using hx
                exact ih _ _ _ x hx2
            · exact ih orig inc rest x hx
          · have h3f : (hasShadowResB (resolveShadow io.shadow le.elem) &&
                validShadowRootB io le.elem (resolveShadow io.shadow le.elem)) =
                  false := by simpa using h3
            rw [gciGoF_cons_dig _ _ _ _ _ _ h1f h2f h3f] at hx
            rw [candsLeaves_append] at hx
            rcases List.mem_append.mp hx with hx | hx
            · obtain ⟨hxe, hfil, hmat⟩ := selfCands_mem _ _ _ _ _ hx
              subst hxe
              exact ⟨hfil, hmat, h2f⟩
            · exact ih orig inc _ x hx

/-! ### The flat collector: selector and filter invariants -/

/-- Every element returned by the embedded `querySelectorAll` matches the
candidate selector. -/
theorem queryAllElem_matches :
    ∀ (ctx : List Elem) (e : Elem) (x : Loc), x ∈ queryAllElem ctx e →
      matchesCandidateSelector x.elem x.ctx = true := by
  refine queryAllElem.induct
    (fun ctx e => ∀ x ∈ queryAllElem ctx e,
      matchesCandidateSelector x.elem x.ctx = true)
    (fun ctx es => ∀ x ∈ queryAllList ctx es,
      matchesCandidateSelector x.elem x.ctx = true)
    ?_ ?_ ?_
  · intro ctx d cs asg hs si sh ih x hx
    rw [queryAllElem] at hx
    rcases List.mem_append.mp hx with hx | hx
    · split at hx
      · rename_i hcond
        simp at hx
        subst hx
        exact hcond
      · simp at hx
    · exact ih x hx
  · intro ctx x hx
    simp [queryAllList] at hx
  · intro ctx c cs ih1 ih2 x hx
    rw [queryAllList] at hx
    rcases List.mem_append.mp hx with hx | hx
    · exact ih1 x hx
    · exact ih2 x hx

theorem queryAllList_matches (ctx : List Elem) (es : List Elem) :
    ∀ x ∈ queryAllList ctx es, matchesCandidateSelector x.elem x.ctx = true := by
  induction es with
  | nil => intro x hx; simp [queryAllList] at hx
  | cons c cs ih =>
    intro x hx
    rw [queryAllList] at hx
    rcases List.mem_append.mp hx with hx | hx
    · exact queryAllElem_matches ctx c x hx
    · exact ih x hx

/-- Every element returned by the flat collector passed the filter and the
structural selector. -/
theorem getCandidates_mem (opts : TOptions) (el : Elem) (rootCtx : List Elem)
    (filter : Elem → List Elem → Bool) (x : Loc)
    (hx : x ∈ getCandidates opts el rootCtx filter) :
    filter x.elem x.ctx = true ∧ matchesCandidateSelector x.elem x.ctx = true := by
  unfold getCandidates at hx
  split at hx
  · simp at hx
  · rw [List.mem_filter] at hx
    obtain ⟨hmem, hfil⟩ := hx
    refine ⟨hfil, ?_⟩
    split at hmem
    · rename_i hcond
      rcases List.mem_cons.mp hmem with rfl | hmem2
      · simp only [Bool.and_eq_true] at hcond
        exact hcond.2
      · exact queryAllList_matches _ _ x hmem2
    · exact queryAllList_matches _ _ x hmem

/-! ### Membership invariants of the public list queries -/

/-- Every element `tabbable` returns passed the tabbable classifier and the
structural selector as evaluated during collection; under shadow support it
is moreover never a slot. -/
theorem tabbable_mem_invariant (env : Env) (opts : TOptions) (el : Elem)
    (rootCtx : List Elem) (x : Loc) (hx : x ∈ tabbable env opts el rootCtx) :
    isNodeMatchingSelectorTabbable env opts x.elem x.ctx = true ∧
      matchesCandidateSelector x.elem x.ctx = true ∧
      (opts.shadow = ShadowOpt.disabled ∨ (x.elem.data.tagName == "SLOT") = false) := by
  unfold tabbable at hx
  cases hsh : opts.shadow with
  | disabled =>
    rw [hsh] at hx
    have hx2 : x ∈ sortByOrder ((getCandidates opts el rootCtx
        (fun e ctx => isNodeMatchingSelectorTabbable env opts e ctx)).map
          Cand.leaf) := hx
    have hx3 := sortByOrderF_subset _ _ x hx2
    rw [candsLeaves_map_leaf] at hx3
    have h := getCandidates_mem opts el rootCtx _ x hx3
    exact ⟨h.1, h.2, Or.inl rfl⟩
  | enabled =>
    rw [hsh] at hx
    have hx2 : x ∈ sortByOrder (getCandidatesIteratively
        ⟨fun e ctx => isNodeMatchingSelectorTabbable env opts e ctx, false,
          ShadowOpt.enabled, some isValidShadowRootTabbable⟩
        opts.includeContainer [Loc.mk el rootCtx]) := hx
    have hx3 := sortByOrderF_subset _ _ x hx2
    have h := gciGoF_leaves _ _ _ _ _ x hx3
    exact ⟨h.1, h.2.1, Or.inr h.2.2⟩
  | probe f =>
    rw [hsh] at hx
    have hx2 : x ∈ sortByOrder (getCandidatesIteratively
        ⟨fun e ctx => isNodeMatchingSelectorTabbable env opts e ctx, false,
          ShadowOpt.probe f, some isValidShadowRootTabbable⟩
        opts.includeContainer [Loc.mk el rootCtx]) := hx
    have hx3 := sortByOrderF_subset _ _ x hx2
    have h := gciGoF_leaves _ _ _ _ _ x hx3
    exact ⟨h.1, h.2.1, Or.inr h.2.2⟩

/-- Every element `focusable` returns passed the focusable classifier and
the structural selector as evaluated during collection; under shadow
support it is moreover never a slot. -/
theorem focusable_mem_invariant (env : Env) (opts : TOptions) (el : Elem)
    (rootCtx : List Elem) (x : Loc) (hx : x ∈ focusable env opts el rootCtx) :
    isNodeMatchingSelectorFocusable env opts x.elem x.ctx = true ∧
      matchesCandidateSelector x.elem x.ctx = true ∧
      (opts.shadow = ShadowOpt.disabled ∨ (x.elem.data.tagName == "SLOT") = false) := by
  unfold focusable at hx
  cases hsh : opts.shadow with
  | disabled =>
    rw [hsh] at hx
    have hx2 : x ∈ getCandidates opts el rootCtx
        (fun e ctx => isNodeMatchingSelectorFocusable env opts e ctx) := hx
    have h := getCandidates_mem opts el rootCtx _ x hx2
    exact ⟨h.1, h.2, Or.inl rfl⟩
  | enabled =>
    rw [hsh] at hx
    have hx2 : x ∈ (getCandidatesIteratively
        ⟨fun e ctx => isNodeMatchingSelectorFocusable env opts e ctx, true,
          ShadowOpt.enabled, none⟩
        opts.includeContainer [Loc.mk el rootCtx]).filterMap
        (fun c => match c with | .leaf le => some le | .scope _ _ => none) := hx
    obtain ⟨c, hc, hsome⟩ := List.mem_filterMap.mp hx2
    have hleaf : c = Cand.leaf x := by
      cases c with
      | leaf le => cases hsome; rfl
      | scope host inner => cases hsome
    subst hleaf
    have hx3 : x ∈ candsLeaves (getCandidatesIteratively
        ⟨fun e ctx => isNodeMatchingSelectorFocusable env opts e ctx, true,
          ShadowOpt.enabled, none⟩
        opts.includeContainer [Loc.mk el rootCtx]) :=
      mem_candsLeaves_of_mem hc x (by simp [candLeaves])
    have h := gciGoF_leaves _ _ _ _ _ x hx3
    exact ⟨h.1, h.2.1, Or.inr h.2.2⟩
  | probe f =>
    rw [hsh] at hx
    have hx2 : x ∈ (getCandidatesIteratively
        ⟨fun e ctx => isNodeMatchingSelectorFocusable env opts e ctx, true,
          ShadowOpt.probe f, none⟩
        opts.includeContainer [Loc.mk el rootCtx]).filterMap
        (fun c => match c with | .leaf le => some le | .scope _ _ => none) := hx
    obtain ⟨c, hc, hsome⟩ := List.mem_filterMap.mp hx2
    have hleaf : c = Cand.leaf x := by
      cases c with
      | leaf le => cases hsome; rfl
      | scope host inner => cases hsome
    subst hleaf
    have hx3 : x ∈ candsLeaves (getCandidatesIteratively
        ⟨fun e ctx => isNodeMatchingSelectorFocusable env opts e ctx, true,
          ShadowOpt.probe f, none⟩
        opts.includeContainer [Loc.mk el rootCtx]) :=
      mem_candsLeaves_of_mem hc x (by simp [candLeaves])
    have h := gciGoF_leaves _ _ _ _ _ x hx3
    exact ⟨h.1, h.2.1, Or.inr h.2.2⟩

/-- Unpacking the focusable classifier: each exclusion is absent. -/
theorem focusablePred_parts (env : Env) (opts : TOptions) (e : Elem)
    (ctx : List Elem) (h : isNodeMatchingSelectorFocusable env opts e ctx = true) :
    e.data.disabled = false ∧ isInert e ctx false = false ∧
      isHiddenInput e = false ∧ isHidden env opts e ctx = false ∧
      isDetailsWithSummary e = false ∧ isDisabledFromFieldset e ctx = false := by
  unfold isNodeMatchingSelectorFocusable at h
  rw [Bool.not_eq_true'] at h
  obtain ⟨h, h6⟩ := Bool.or_eq_false_iff.mp h
  obtain ⟨h, h5⟩ := Bool.or_eq_false_iff.mp h
  obtain ⟨h, h4⟩ := Bool.or_eq_false_iff.mp h
  obtain ⟨h, h3⟩ := Bool.or_eq_false_iff.mp h
  obtain ⟨h1, h2⟩ := Bool.or_eq_false_iff.mp h
  exact ⟨h1, h2, h3, h4, h5, h6⟩

/-- Unpacking the tabbable classifier. -/
theorem tabbablePred_parts (env : Env) (opts : TOptions) (e : Elem)
    (ctx : List Elem) (h : isNodeMatchingSelectorTabbable env opts e ctx = true) :
    isNonTabbableRadio env e.data = false ∧ 0 ≤ getTabindex e false ∧
      isNodeMatchingSelectorFocusable env opts e ctx = true := by
  unfold isNodeMatchingSelectorTabbable at h
  rw [Bool.not_eq_true'] at h
  obtain ⟨h, h3⟩ := Bool.or_eq_false_iff.mp h
  obtain ⟨h1, h2⟩ := Bool.or_eq_false_iff.mp h
  have h3t : isNodeMatchingSelectorFocusable env opts e ctx = true := by
    simpa using h3
  refine ⟨h1, ?_, h3t⟩
  have hnl := of_decide_eq_false h2
  omega

/-- A slot matching the candidate selector can only do so through the
contenteditable clause. -/
theorem matches_slot_contenteditable (e : Elem) (ctx : List Elem)
    (hm : matchesCandidateSelector e ctx = true)
    (htag : e.data.tagName = "SLOT") :
    e.data.contenteditableAttr.isSome = true ∧
      e.data.contenteditableAttr ≠ some "false" := by
  have hsum : isDirectFirstSummary e ctx = false := by
    unfold isDirectFirstSummary
    rw [htag]
    simp
  unfold matchesCandidateSelector at hm
  rw [htag, hsum] at hm
  simp at hm
  exact ⟨hm.2.1, hm.2.2⟩

/-- Claim C1: every element returned by `tabbable` or `focusable`
satisfies, at the moment of return, the full focusability predicate (not
disabled, not inert on itself — ancestors excluded by the selector's inert
guard, visible in the collection context, not a hidden input, not a
details-with-summary delegate, not fieldset-disabled), and `tabbable`
results are additionally not non-tabbable radios and have effective tab
index at least 0. -/
theorem c1_returned_results_satisfy_predicate :
    (∀ (env : Env) (opts : TOptions) (el : Elem) (rootCtx : List Elem) (x : Loc),
      x ∈ tabbable env opts el rootCtx →
      isNodeMatchingSelectorTabbable env opts x.elem x.ctx = true ∧
        matchesCandidateSelector x.elem x.ctx = true ∧
        x.elem.data.disabled = false ∧ isInert x.elem x.ctx false = false ∧
        isHiddenInput x.elem = false ∧ isHidden env opts x.elem x.ctx = false ∧
        isDetailsWithSummary x.elem = false ∧
        isDisabledFromFieldset x.elem x.ctx = false ∧
        isNonTabbableRadio env x.elem.data = false ∧
        0 ≤ getTabindex x.elem false) ∧
    (∀ (env : Env) (opts : TOptions) (el : Elem) (rootCtx : List Elem) (x : Loc),
      x ∈ focusable env opts el rootCtx →
      isNodeMatchingSelectorFocusable env opts x.elem x.ctx = true ∧
        matchesCandidateSelector x.elem x.ctx = true ∧
        x.elem.data.disabled = false ∧ isInert x.elem x.ctx false = false ∧
        isHiddenInput x.elem = false ∧ isHidden env opts x.elem x.ctx = false ∧
        isDetailsWithSummary x.elem = false ∧
        isDisabledFromFieldset x.elem x.ctx = false) := by
  constructor
  · intro env opts el rootCtx x hx
    obtain ⟨hpred, hmat, -⟩ := tabbable_mem_invariant env opts el rootCtx x hx
    obtain ⟨hrad, htix, hfoc⟩ := tabbablePred_parts env opts x.elem x.ctx hpred
    obtain ⟨h1, h2, h3, h4, h5, h6⟩ := focusablePred_parts env opts x.elem x.ctx hfoc
    exact ⟨hpred, hmat, h1, h2, h3, h4, h5, h6, hrad, htix⟩
  · intro env opts el rootCtx x hx
    obtain ⟨hpred, hmat, -⟩ := focusable_mem_invariant env opts el rootCtx x hx
    obtain ⟨h1, h2, h3, h4, h5, h6⟩ := focusablePred_parts env opts x.elem x.ctx hpred
    exact ⟨hpred, hmat, h1, h2, h3, h4, h5, h6⟩

/-- Witness for C1 at a one-button container. -/
theorem c1_witness :
    isNodeMatchingSelectorTabbable cEnv cOpts cBtn [c1Root] = true ∧
    isNodeMatchingSelectorFocusable cEnv cOpts cBtn [c1Root] = true := by
  have hmem : Loc.mk cBtn [c1Root] ∈ tabbable cEnv cOpts c1Root [] := by
    rw [show tabbable cEnv cOpts c1Root [] = [Loc.mk cBtn [c1Root]] from rfl]
    exact List.mem_singleton_self _
  have hmem2 : Loc.mk cBtn [c1Root] ∈ focusable cEnv cOpts c1Root [] := by
    rw [show focusable cEnv cOpts c1Root [] = [Loc.mk cBtn [c1Root]] from rfl]
    exact List.mem_singleton_self _
  exact ⟨(c1_returned_results_satisfy_predicate.1 cEnv cOpts c1Root [] _ hmem).1,
    (c1_returned_results_satisfy_predicate.2 cEnv cOpts c1Root [] _ hmem2).1⟩

/-- Claim C10 counterexample: under the flat strategy, a slot bearing an
explicit `tabindex` attribute (and `contenteditable`) is returned by
`focusable`, so a slot is not universally excluded. -/
theorem c10_counterexample :
    c10SlotData.tagName = "SLOT" ∧
    c10SlotData.tabindexAttr.isSome = true ∧
    Loc.mk c10Slot [c10Root] ∈ focusable cEnv cOpts c10Root [] := by
  refine ⟨rfl, rfl, ?_⟩
  rw [show focusable cEnv cOpts c10Root [] = [Loc.mk c10Slot [c10Root]] from rfl]
  exact List.mem_singleton_self _

/-- Claim C10 as amended: the iterative (shadow-aware) collector never
returns a slot; under the flat strategy a slot is excluded from the
tabindex-bearing selector clause, so a returned slot can only have matched
through the contenteditable clause — a slot bearing only a `tabindex`
attribute is never returned. -/
theorem c10_amended :
    (∀ (env : Env) (opts : TOptions) (el : Elem) (rootCtx : List Elem) (x : Loc),
      opts.shadow ≠ ShadowOpt.disabled →
      (x ∈ tabbable env opts el rootCtx ∨ x ∈ focusable env opts el rootCtx) →
      x.elem.data.tagName ≠ "SLOT") ∧
    (∀ (env : Env) (opts : TOptions) (el : Elem) (rootCtx : List Elem) (x : Loc),
      (x ∈ tabbable env opts el rootCtx ∨ x ∈ focusable env opts el rootCtx) →
      x.elem.data.tagName = "SLOT" →
      x.elem.data.contenteditableAttr.isSome = true ∧
        x.elem.data.contenteditableAttr ≠ some "false") := by
  constructor
  · intro env opts el rootCtx x hsh hx
    have hinv : opts.shadow = ShadowOpt.disabled ∨
        (x.elem.data.tagName == "SLOT") = false := by
      rcases hx with hx | hx
      · exact (tabbable_mem_invariant env opts el rootCtx x hx).2.2
      · exact (focusable_mem_invariant env opts el rootCtx x hx).2.2
    rcases hinv with hinv | hinv
    · exact absurd hinv hsh
    · simpa using hinv
  · intro env opts el rootCtx x hx htag
    have hmat : matchesCandidateSelector x.elem x.ctx = true := by
      rcases hx with hx | hx
      · exact (tabbable_mem_invariant env opts el rootCtx x hx).2.1
      · exact (focusable_mem_invariant env opts el rootCtx x hx).2.1
    exact matches_slot_contenteditable x.elem x.ctx hmat htag

/-- Witness for C10's amended claim: the concrete returned slot indeed
carries a qualifying `contenteditable` attribute. -/
theorem c10_witness :
    c10SlotData.contenteditableAttr.isSome = true ∧
    c10SlotData.contenteditableAttr ≠ some "false" := by
  have hmem : Loc.mk c10Slot [c10Root] ∈ focusable cEnv cOpts c10Root [] := by
    rw [show focusable cEnv cOpts c10Root [] = [Loc.mk c10Slot [c10Root]] from rfl]
    exact List.mem_singleton_self _
  exact c10_amended.2 cEnv cOpts c10Root [] (Loc.mk c10Slot [c10Root])
    (Or.inr hmem) rfl

/-! ### The sorter matches the spec's description (claim C3) -/

theorem candsWeight_cons (c : Cand) (cs : List Cand) :
    candsWeight (c :: cs) = 1 + candWeight c + candsWeight cs := rfl

theorem candWeight_scope (host : Loc) (inner : List Cand) :
    candWeight (Cand.scope host inner) = 1 + candsWeight inner := rfl

theorem candsWeight_scope_mem {host : Loc} {inner cands : List Cand}
    (h : Cand.scope host inner ∈ cands) :
    candsWeight inner + 2 ≤ candsWeight cands := by
  induction cands with
  | nil => cases h
  | cons c cs ih =>
    rcases List.mem_cons.mp h with rfl | h2
    · rw [candsWeight_cons, candWeight_scope]
      omega
    · have := ih h2
      rw [candsWeight_cons]
      omega

theorem candsTixOk_of_mem {cands : List Cand} {c : Cand}
    (h : candsTixOk cands = true) (hc : c ∈ cands) : candTixOk c = true := by
  induction cands with
  | nil => cases hc
  | cons d cs ih =>
    have h2 : candTixOk d = true ∧ candsTixOk cs = true := by
      simpa [candsTixOk, Bool.and_eq_true] using h
    rcases List.mem_cons.mp hc with rfl | hc2
    · exact h2.1
    · exact ih h2.2 hc2

theorem candTix_nonneg {c : Cand} (h : candTixOk c = true) : 0 ≤ candTix c := by
  cases c with
  | leaf le => simpa [candTixOk, candTix] using h
  | scope host inner =>
    simp [candTixOk, Bool.and_eq_true] at h
    simpa [candTix] using h.1

/-- The JS comparator ordering coincides with the lexicographic
(tab index, position) ordering. -/
theorem ordLe_mk (i : Nat) (t : Int) (s1 : Bool) (c1 : List Loc) (j : Nat)
    (u : Int) (s2 : Bool) (c2 : List Loc) :
    ordLe (Sortable.mk i t s1 c1) (Sortable.mk j u s2 c2) = lexLe (t, i) (u, j) := by
  unfold ordLe sortOrderedTabbables lexLe
  by_cases h : t = u
  · subst h
    simp
  · have hne : (t == u) = false := by simpa using h
    simp [hne]
    all_goals omega

theorem insertSorted_map {α β : Type} (f : α → β) (le1 : α → α → Bool)
    (le2 : β → β → Bool) (hc : ∀ a b, le2 (f a) (f b) = le1 a b) (x : α) :
    ∀ l : List α, insertSorted le2 (f x) (l.map f) = (insertSorted le1 x l).map f := by
  intro l
  induction l with
  | nil => rfl
  | cons y ys ih =>
    show (if le2 (f x) (f y) then f x :: f y :: ys.map f
      else f y :: insertSorted le2 (f x) (ys.map f)) = _
    rw [hc x y]
    by_cases h : le1 x y = true
    · simp [insertSorted, h]
    · have h0 : le1 x y = false := by simpa using h
      simp [insertSorted, h0, ih]

theorem sortLe_map {α β : Type} (f : α → β) (le1 : α → α → Bool)
    (le2 : β → β → Bool) (hc : ∀ a b, le2 (f a) (f b) = le1 a b) :
    ∀ l : List α, sortLe le2 (l.map f) = (sortLe le1 l).map f := by
  intro l
  induction l with
  | nil => rfl
  | cons y ys ih =>
    show insertSorted le2 (f y) (sortLe le2 (ys.map f)) = _
    rw [ih, insertSorted_map f le1 le2 hc]
    rfl

theorem flatMap_congr_mem {α β : Type} {l : List α} {f g : α → List β}
    (h : ∀ a ∈ l, f a = g a) : l.flatMap f = l.flatMap g := by
  induction l with
  | nil => rfl
  | cons a rest ih =>
    simp only [List.flatMap_cons]
    rw [h a (by simp), ih (fun b hb => h b (by simp [hb]))]

theorem flatMap_map_content (sorter : List Cand → List Loc) :
    ∀ l : List (Nat × Cand),
      ((l.map (fun it => Sortable.mk it.1 (candTix it.2) (candIsScope it.2)
        (spliceWith sorter it.2))).flatMap Sortable.content) =
        l.flatMap (fun it => spliceWith sorter it.2) := by
  intro l
  induction l with
  | nil => rfl
  | cons a rest ih => simp [ih]

/-- The code's sorter and the spec's description agree at equal fuel, for
candidate lists whose effective tab indexes are all nonnegative. -/
theorem sortByOrderF_eq_specF :
    ∀ (fuel : Nat) (cands : List Cand), candsWeight cands < fuel →
      candsTixOk cands = true →
      sortByOrderF fuel cands = sortByOrderSpecF fuel cands := by
  intro fuel
  induction fuel with
  | zero => intro cands hw htix; omega
  | succ fuel ih =>
    intro cands hw htix
    have hsplice : ∀ it : Nat × Cand, it.2 ∈ cands →
        spliceWith (sortByOrderF fuel) it.2 =
          spliceWith (sortByOrderSpecF fuel) it.2 := by
      intro it hmem
      cases hc : it.2 with
      | leaf le => simp [spliceWith]
      | scope host inner =>
        simp only [spliceWith]
        rw [hc] at hmem
        have hwlt : candsWeight inner < fuel := by
          have h2 := candsWeight_scope_mem hmem
          omega
        have hok := candsTixOk_of_mem htix hmem
        simp [candTixOk, Bool.and_eq_true] at hok
        exact ih inner hwlt hok.2
    have henum : cands.enum = List.enumFrom 0 cands := rfl
    have hL : sortByOrderF (fuel + 1) cands =
        ((sortLe ordLe (classifyWith (sortByOrderF fuel) 0 cands).2).foldl
          (fun acc s => acc ++ s.content) []) ++
          (classifyWith (sortByOrderF fuel) 0 cands).1 := rfl
    have hR : sortByOrderSpecF (fuel + 1) cands =
        (sortLe (fun a b => lexLe (candTix a.2, a.1) (candTix b.2, b.1))
            (cands.enum.filter (fun it => decide (0 < candTix it.2)))).flatMap
          (fun it => spliceWith (sortByOrderSpecF fuel) it.2) ++
          (cands.enum.filter (fun it => candTix it.2 == 0)).flatMap
            (fun it => spliceWith (sortByOrderSpecF fuel) it.2) := rfl
    rw [hL, hR, classifyWith_fst, classifyWith_snd, foldl_append_content,
      List.nil_append, ← henum]
    congr 1
    · have hfil : cands.enum.filter (fun it => !(candTix it.2 == 0)) =
          cands.enum.filter (fun it => decide (0 < candTix it.2)) := by
        apply List.filter_congr
        intro it hit
        have hmem : it.2 ∈ cands := mem_of_mem_enumFrom (henum ▸ hit)
        have h0 : 0 ≤ candTix it.2 := candTix_nonneg (candsTixOk_of_mem htix hmem)
        by_cases ht : candTix it.2 = 0
        · simp [ht]
        · have hb : (candTix it.2 == 0) = false := by simpa using ht
          simp only [hb, Bool.not_false]
          rw [eq_comm, decide_eq_true_eq]
          omega
      rw [hfil]
      rw [sortLe_map
        (fun it : Nat × Cand => Sortable.mk it.1 (candTix it.2) (candIsScope it.2)
          (spliceWith (sortByOrderF fuel) it.2))
        (fun a b : Nat × Cand => lexLe (candTix a.2, a.1) (candTix b.2, b.1))
        ordLe
        (fun a b : Nat × Cand => ordLe_mk a.1 (candTix a.2) (candIsScope a.2)
          (spliceWith (sortByOrderF fuel) a.2) b.1 (candTix b.2)
          (candIsScope b.2) (spliceWith (sortByOrderF fuel) b.2))]
      rw [flatMap_map_content]
      apply flatMap_congr_mem
      intro it hit
      have hit2 : it ∈ cands.enum.filter (fun it => decide (0 < candTix it.2)) :=
        (mem_sortLe _ _ _).mp hit
      have hmem : it.2 ∈ cands :=
        mem_of_mem_enumFrom (henum ▸ (List.mem_filter.mp hit2).1)
      exact hsplice it hmem
    · apply flatMap_congr_mem
      intro it hit
      have hmem : it.2 ∈ cands :=
        mem_of_mem_enumFrom (henum ▸ (List.mem_filter.mp hit).1)
      exact hsplice it hmem

/-- Claim C3: for a list of classified candidates (all effective tab
indexes nonnegative, negative ones having been excluded upstream), the
sorter emits first the items with positive tab index sorted by (tab index
ascending, original position ascending) with scopes recursively sorted and
spliced flat, then the zero-tab-index items in original order, scopes
likewise recursively sorted and spliced. -/
theorem c3_sortByOrder_follows_spec (cands : List Cand)
    (h : candsTixOk cands = true) :
    sortByOrder cands = sortByOrderSpec cands :=
  sortByOrderF_eq_specF (candsWeight cands + 1) cands (by omega) h

/-- Witness for C3 on a concrete mixed candidate list. -/
theorem c3_witness : sortByOrder c3Cands = sortByOrderSpec c3Cands :=
  c3_sortByOrder_follows_spec c3Cands (by decide)

/-- Witness for C6: a concrete input inside a disabled legendless fieldset
is excluded and fails the focusable classifier; the same kind of input
inside the fieldset's first legend is not excluded. -/
theorem c6_witness :
    isDisabledFromFieldset (mkLeaf c6InputData) [c6Fieldset] = true ∧
    isNodeMatchingSelectorFocusable cEnv cOpts (mkLeaf c6InputData)
      [c6Fieldset] = false ∧
    isDisabledFromFieldset (mkLeaf c6LegendInputData)
      [c6Legend, c6FieldsetL] = false := by
  have h1 := c6_fieldset_disable.1 (mkLeaf c6InputData) [c6Fieldset] []
    c6Fieldset [] rfl rfl (by simp) rfl
    (by
      rintro ⟨lg, hlg, -, -⟩
      rw [show c6Fieldset.children.find?
        (fun c => c.data.tagName == "LEGEND") = none from rfl] at hlg
      exact Option.noConfusion hlg)
  refine ⟨h1,
    (c6_fieldset_disable.2.2 cEnv cOpts (mkLeaf c6InputData) [c6Fieldset] h1).1, ?_⟩
  exact c6_fieldset_disable.2.1 (mkLeaf c6LegendInputData)
    [c6Legend, c6FieldsetL] [c6Legend] c6FieldsetL [] c6Legend rfl (by decide)
    rfl rfl (by simp)

end Tabbable
